import Mathlib

/-!
Shallow embedding of the measurement-aggregation and swap-cache subsystem of
the `ML_mixins` repository: the `TimeableMixin` interval recorder
(`src/mixins/timeable.py`, `src/src/mixins/timeable.py`), the
`MemTrackableMixin` statistics (`src/src/mixins/memtrackable.py`), the pure
formatting helpers (`src/src/mixins/utils.py`) and the `SwapcacheableMixin`
attribute multiplexer (`src/mixins/swapcacheable.py`).

Python floats are modelled as rationals (`ℚ`); Python exceptions are modelled
with an explicit error type and `Except`.
-/

/-- Errors raised by the modelled Python code.  `preconditionError` models a
failed `assert` (the spec's `PreconditionError`); the other constructors model
the Python exception classes of the same names.  `attributeError` in
particular models access to an attribute that does not exist on the object. -/
inductive PyError where
  | preconditionError
  | lookupError
  | valueError
  | typeError
  | attributeError
  | indexError
  | zeroDivisionError
deriving DecidableEq, Repr

/-- Equality of modelled Python results is decidable, so concrete runs can be
checked by evaluation. -/
instance {ε α : Type} [DecidableEq ε] [DecidableEq α] : DecidableEq (Except ε α) := fun x y =>
  match x, y with
  | .ok a, .ok b =>
    if h : a = b then .isTrue (congrArg _ h)
    else .isFalse fun he => h (Except.ok.inj he)
  | .error a, .error b =>
    if h : a = b then .isTrue (congrArg _ h)
    else .isFalse fun he => h (Except.error.inj he)
  | .ok _, .error _ => .isFalse fun he => Except.noConfusion he
  | .error _, .ok _ => .isFalse fun he => Except.noConfusion he

/-- One timing attempt: the dict `{"start": ..., "end": ...}` stored in
`self._timings[key]` by `TimeableMixin`.  Both fields are optional because the
dict may lack either key; `_register_start` creates `{"start": now}`.  The
field `stop` models the `"end"` entry (`end` is a Lean keyword). -/
structure Attempt where
  start : Option ℚ
  stop : Option ℚ
deriving DecidableEq, Repr

/-- The `self._timings` mapping: an insertion-ordered association list from
key to the list of attempts, modelling the Python `defaultdict(list)`. -/
abbrev Timings : Type := List (String × List Attempt)

/-- Lookup in an insertion-ordered association list (Python `d[k]` /
`k in d`): the first binding for the key, if any. -/
def aLookup {V : Type} (l : List (String × V)) (k : String) : Option V :=
  match l with
  | [] => none
  | (k', v) :: rest => if k' = k then some v else aLookup rest k

/-- Write to an insertion-ordered association list (Python `d[k] = v`): an
existing key keeps its position, a new key is appended at the end. -/
def aSet {V : Type} (l : List (String × V)) (k : String) (v : V) :
    List (String × V) :=
  match l with
  | [] => [(k, v)]
  | (k', v') :: rest => if k' = k then (k, v) :: rest else (k', v') :: aSet rest k v

/-- Models `TimeableMixin._register_start`: appends `{"start": now}` to the key's
attempt list, lazily creating the list (the `defaultdict` behaviour). -/
def registerStart (key : String) (now : ℚ) (t : Timings) : Timings :=
  match aLookup t key with
  | some l => aSet t key (l ++ [⟨some now, none⟩])
  | none => t ++ [(key, [⟨some now, none⟩])]

/-- Models `TimeableMixin._register_end`: asserts that the key has a nonempty attempt
list whose last attempt has no `"end"` entry, then sets `"end"` on that last
attempt.  All asserts run before the mutation, so a failing call leaves the
timings unchanged. -/
def registerEnd (key : String) (now : ℚ) (t : Timings) : Except PyError Timings :=
  match aLookup t key with
  | none => .error .preconditionError
  | some l =>
    match l.getLast? with
    | none => .error .preconditionError
    | some a =>
      if a.stop.isSome then .error .preconditionError
      else .ok (aSet t key (l.dropLast ++ [{ a with stop := some now }]))

/-- The completed durations of one attempt list: `end - start` for every
attempt that has both entries, in recording order (the list comprehension in
`TimeableMixin._times_for`). -/
def completedDurations (l : List Attempt) : List ℚ :=
  l.filterMap fun a =>
    match a.start, a.stop with
    | some s, some e => some (e - s)
    | _, _ => none

/-- Models `TimeableMixin._times_for`: asserts the key exists in `self._timings`,
then returns the completed durations. -/
def timesFor (key : String) (t : Timings) : Except PyError (List ℚ) :=
  match aLookup t key with
  | none => .error .preconditionError
  | some l => .ok (completedDurations l)

/-- Models `numpy` `arr.mean()` over a list of rationals.  (For an empty list numpy
returns NaN; rational division by zero yields `0` here instead.) -/
def qMean (l : List ℚ) : ℚ := l.sum / l.length

/-- The population variance `arr.std() ** 2` of numpy: mean of squared
deviations from the mean, divisor `n`.  The numpy standard deviation is the
square root of this value; it is kept squared so the model stays rational. -/
def qPopVar (l : List ℚ) : ℚ :=
  (l.map fun x => (x - qMean l) ^ 2).sum / l.length

/-- Models `TimeableMixin._duration_stats`: for every key of `self._timings`, the
triple `(arr.mean(), len(arr), arr.std())` over the completed durations.  The
third component models `arr.std()` as `some` of its square (the population
variance): the source always produces a float here, never `None`. -/
def durationStats (t : Timings) : List (String × (ℚ × ℕ × Option ℚ)) :=
  t.map fun p =>
    let ds := completedDurations p.2
    (p.1, (qMean ds, ds.length, some (qPopVar ds)))

/-- A unit-scale table (`cutoffs_and_units` in `utils.py`): an ordered list of
`(factor, unit)` pairs, the factor being `None` on the final, largest unit. -/
abbrev UnitsList : Type := List (Option ℚ × String)

/-- The first loop shared by `normalize_unit` and
`pprint_stats_map.total_val`: walk the table accumulating the product of the
factors until the requested unit is found.  `none` models reaching a
`None` factor before finding the unit (both callers raise there); if the
loop falls off the end without a `None` factor the accumulated full product
is returned, exactly as the Python loop does. -/
def factorLoop (xUnit : String) (cutoffs : UnitsList) (acc : ℚ) : Option ℚ :=
  match cutoffs with
  | [] => some acc
  | (fac, unit) :: rest =>
    if unit = xUnit then some acc
    else
      match fac with
      | none => none
      | some f => factorLoop xUnit rest (acc * f)

/-- The second loop of `normalize_unit`: walk the table upward, tracking the
cumulative lower bound, and return the first unit whose next cutoff exceeds
the value (or the `None`-factor unit).  `none` models the Python function
falling off the loop and implicitly returning `None`. -/
def pickUnitLoop (minUnit : ℚ) (cutoffs : UnitsList) (ub : ℚ) :
    Option (ℚ × String) :=
  match cutoffs with
  | [] => none
  | (fac, unit) :: rest =>
    match fac with
    | none => some (minUnit / ub, unit)
    | some f =>
      if minUnit < ub * f then some (minUnit / ub, unit)
      else pickUnitLoop minUnit rest (ub * f)

/-- Models `utils.normalize_unit`: converts `(x, x_unit)` to the base unit by the
factor loop (raising `LookupError` when the unit is absent from the table),
then normalizes upward with the pick loop.  The inner `Option` is the Python
return value, which can be the implicit `None` on a malformed table. -/
def normalize_unit (val : ℚ × String) (cutoffs : UnitsList) :
    Except PyError (Option (ℚ × String)) :=
  match factorLoop val.2 cutoffs 1 with
  | none => .error .lookupError
  | some factor => .ok (pickUnitLoop (val.1 * factor) cutoffs 1)

/-- Round a rational to the nearest integer, ties to even: the rounding of
Python's fixed-point float formatting. -/
def roundHalfEven (x : ℚ) : ℤ :=
  if 1 / 2 < x - ⌊x⌋ then ⌊x⌋ + 1
  else if x - ⌊x⌋ < 1 / 2 then ⌊x⌋
  else if ⌊x⌋ % 2 = 0 then ⌊x⌋ else ⌊x⌋ + 1

/-- Python `"%.1f"` formatting of a nonnegative rational: one digit after the
decimal point, ties to even. -/
def fmt1Nonneg (x : ℚ) : String :=
  let n : ℤ := roundHalfEven (x * 10)
  toString (n / 10) ++ "." ++ toString (n % 10)

/-- Python `f"{x:.1f}"` on a rational. -/
def fmt1 (x : ℚ) : String :=
  if x < 0 then "-" ++ fmt1Nonneg (-x) else fmt1Nonneg x

/-- Models `utils.pprint_quant`: normalize the quantity, render `"v ± sd unit"` when
a standard deviation is given (scaling it by `norm_val / val[0]`, which in
Python raises `ZeroDivisionError` when `val[0]` is zero) or `"v unit"`
otherwise, and append `" (xN)"` when the count exceeds one.  Unpacking the
`None` that `normalize_unit` can return raises a `TypeError` in Python. -/
def pprint_quant (cutoffs : UnitsList) (val : ℚ × String) (nTimes : ℕ)
    (stdVal : Option ℚ) : Except PyError String :=
  match normalize_unit val cutoffs with
  | .error e => .error e
  | .ok none => .error .typeError
  | .ok (some (normVal, unit)) =>
    match stdVal with
    | some sv =>
      if val.1 = 0 then .error .zeroDivisionError
      else
        let s := fmt1 normVal ++ " ± " ++ fmt1 (sv * (normVal / val.1)) ++ " " ++ unit
        .ok (if nTimes > 1 then s ++ " (x" ++ toString nTimes ++ ")" else s)
    | none =>
      let s := fmt1 normVal ++ " " ++ unit
      .ok (if nTimes > 1 then s ++ " (x" ++ toString nTimes ++ ")" else s)

/-- One value of the `stats` dict passed to `pprint_stats_map`: the quantity
`(value, unit)`, the measurement count and the optional standard deviation. -/
abbrev StatEntry : Type := (ℚ × String) × ℕ × Option ℚ

/-- Models `pprint_stats_map.total_val`: the key's total base-unit magnitude, the
value multiplied up to the base unit and by the count; raises `ValueError`
when the unit is absent from the table. -/
def total_val (cutoffs : UnitsList) (entry : StatEntry) : Except PyError ℚ :=
  match factorLoop entry.1.2 cutoffs 1 with
  | none => .error .valueError
  | some factor => .ok (entry.1.1 * factor * entry.2.1)

/-- The sort-key computation of `sorted(stats.keys(), key=total_val)`:
each entry of the stats mapping decorated with its total base-unit magnitude,
in mapping order, propagating the first `ValueError`. -/
def decorate (stats : List (String × StatEntry)) (cutoffs : UnitsList) :
    Except PyError (List (String × StatEntry × ℚ)) :=
  match stats with
  | [] => .ok []
  | p :: rest =>
    match total_val cutoffs p.2 with
    | .error e => .error e
    | .ok t =>
      match decorate rest cutoffs with
      | .error e => .error e
      | .ok ds => .ok ((p.1, p.2, t) :: ds)

/-- The comparison used to sort the decorated entries: ascending in the total
base-unit magnitude. -/
def byTotal (a b : String × StatEntry × ℚ) : Prop := a.2.2 ≤ b.2.2

instance : DecidableRel byTotal := fun a b => inferInstanceAs (Decidable (a.2.2 ≤ b.2.2))

instance : IsTotal (String × StatEntry × ℚ) byTotal :=
  ⟨fun a b => le_total a.2.2 b.2.2⟩

instance : IsTrans (String × StatEntry × ℚ) byTotal :=
  ⟨fun _ _ _ hab hbc => le_trans hab hbc⟩

/-- The `ordered_keys` of `pprint_stats_map`, kept decorated: the stats
entries sorted ascending by total base-unit magnitude with a stable insertion
sort (Python's `sorted` is stable). -/
def orderedEntries (stats : List (String × StatEntry)) (cutoffs : UnitsList) :
    Except PyError (List (String × StatEntry × ℚ)) :=
  match decorate stats cutoffs with
  | .error e => .error e
  | .ok ds => .ok (ds.insertionSort byTotal)

/-- Rendering of the sorted entries into the aligned output lines of
`pprint_stats_map`, each `"{k}:{pad} {quantity}"` with the quantity column
fixed by the longest key length. -/
def renderLines (longest : ℕ) (cutoffs : UnitsList)
    (ordered : List (String × StatEntry × ℚ)) : Except PyError (List String) :=
  match ordered with
  | [] => .ok []
  | p :: rest =>
    match pprint_quant cutoffs p.2.1.1 p.2.1.2.1 p.2.1.2.2 with
    | .error e => .error e
    | .ok q =>
      match renderLines longest cutoffs rest with
      | .error e => .error e
      | .ok ls =>
        .ok ((p.1 ++ ":" ++ String.mk (List.replicate (longest - p.1.length) ' ')
          ++ " " ++ q) :: ls)

/-- Models `utils.pprint_stats_map`: `max(len(k) for k in stats)` (a `ValueError` on
an empty mapping), the stable sort by total magnitude, then one aligned line
per key joined by newlines, no trailing newline. -/
def pprint_stats_map (stats : List (String × StatEntry)) (cutoffs : UnitsList) :
    Except PyError String :=
  if stats.isEmpty then .error .valueError
  else
    match orderedEntries stats cutoffs with
    | .error e => .error e
    | .ok ordered =>
      match renderLines ((stats.map fun p => p.1.length).foldl max 0) cutoffs ordered with
      | .error e => .error e
      | .ok lines => .ok (String.intercalate "\n" lines)

/-- Models `TimeableMixin.TimeAs`'s inner `wrapper_timing`, with the wrapped callable
modelled as a state transformer on the timings that returns its result or a
raised exception together with the timings it leaves behind.  The wrapper's
signature `(self, *args, seed=None, **kwargs)` binds a call-site keyword
argument named `seed` into its own (unused) parameter, so the callable is
invoked with the remaining keyword arguments only.  The body registers a
start, calls the callable, and registers the end only on a normal return —
there is no `try`/`finally` here, so a raised exception propagates without
the end registration. -/
def wrapperTiming {V α E : Type} (key : String)
    (fn : List V → List (String × V) → Timings → Except E α × Timings)
    (now1 now2 : ℚ) (pos : List V) (kw : List (String × V)) (t : Timings) :
    Except (E ⊕ PyError) α × Timings :=
  let kwRest := kw.filter fun p => decide (p.1 ≠ "seed")
  let t1 := registerStart key now1 t
  match fn pos kwRest t1 with
  | (.ok out, t2) =>
    match registerEnd key now2 t2 with
    | .ok t3 => (.ok out, t3)
    | .error e => (.error (.inr e), t2)
  | (.error e, t2) => (.error (.inl e), t2)

/-- Models `TimeableMixin._time_as`, the `contextmanager`-scoped timing block:
registers a start, runs the wrapped body, and — in the `finally` clause —
registers the end on every exit path, whether the body returned normally or
raised.  A body exception propagates once the end registration succeeds; an
exception raised by the end registration itself replaces it. -/
def timeAs {α E : Type} (key : String) (body : Timings → Except E α × Timings)
    (now1 now2 : ℚ) (t : Timings) : Except (E ⊕ PyError) α × Timings :=
  let r := body (registerStart key now1 t)
  match registerEnd key now2 r.2 with
  | .ok t3 => (r.1.mapError Sum.inl, t3)
  | .error e => (.error (.inr e), r.2)

/-- The most recent attempt recorded for a key has its end timestamp set
(used to state the scoped-timing guarantee). -/
def lastAttemptEnded (t : Timings) (key : String) : Bool :=
  match aLookup t key with
  | some l =>
    match l.getLast? with
    | some a => a.stop.isSome
    | none => false
  | none => false

/-- Models `MemTrackableMixin._memory_stats` over the recorded peak-memory samples
(`_peak_mem_for` values) of each key: the triple
`(arr.mean(), len(arr), None if len(arr) <= 1 else arr.std())`, with the
standard deviation again stored squared. -/
def memoryStats (m : List (String × List ℚ)) : List (String × (ℚ × ℕ × Option ℚ)) :=
  m.map fun p =>
    (p.1, (qMean p.2, p.2.length, if p.2.length ≤ 1 then none else some (qPopVar p.2)))

/-- Python list indexing `l[idx]` with negative-index wraparound; `none`
models an `IndexError`. -/
def pyGet {α : Type} (l : List α) (idx : ℤ) : Option α :=
  let i : ℤ := if idx < 0 then idx + l.length else idx
  if 0 ≤ i then l[i.toNat]? else none

/-- In-place mutation of `l[idx]` by `f`, with Python's negative indexing;
`none` models an `IndexError`. -/
def pyModify {α : Type} (l : List α) (idx : ℤ) (f : α → α) : Option (List α) :=
  let i : ℤ := if idx < 0 then idx + l.length else idx
  if 0 ≤ i then
    match l[i.toNat]? with
    | some a => some (l.set i.toNat (f a))
    | none => none
  else none

/-- The Python slice `l[m:]`: drop up to the start index, counting from the
back when `m` is negative. -/
def pySliceFrom {α : Type} (l : List α) (m : ℤ) : List α :=
  if 0 ≤ m then l.drop m.toNat
  else l.drop (l.length - (-m).toNat)

/-- The truncation `l[-n:]` used for cache eviction: the last `n` elements
when `n ≥ 1`; for `n = 0` the slice `l[0:]` keeps the whole list. -/
def truncKeep {α : Type} (l : List α) (n : ℤ) : List α :=
  pySliceFrom l (-n)

/-- Deletion from an attribute map (Python `delattr`): `none` models the
`AttributeError` on a missing name. -/
def aDel {V : Type} (l : List (String × V)) (k : String) : Option (List (String × V)) :=
  match l with
  | [] => none
  | (k', v) :: rest =>
    if k' = k then some rest
    else (aDel rest k).map fun r => (k', v) :: r

/-- The `for attr in self._front_attrs: delattr(self, attr)` loop. -/
def delAttrs {V : Type} (names : List String) (host : List (String × V)) :
    Except PyError (List (String × V)) :=
  match names with
  | [] => .ok host
  | n :: rest =>
    match aDel host n with
    | none => .error .attributeError
    | some host1 => delAttrs rest host1

/-- Python `dict.update`: merge the updates left to right, existing keys
keeping their position, new keys appended (also the effect of repeated
`setattr` calls on the host's attribute map). -/
def dictUpdate {V : Type} (l upd : List (String × V)) : List (String × V) :=
  upd.foldl (fun acc p => aSet acc p.1 p.2) l

/-- The state of a host object carrying `SwapcacheableMixin`
(`src/mixins/swapcacheable.py`): the bounded `_cache` key and bundle lists,
the configured `_cache_size`, the `_front_attrs` name list (initialised empty
and, in the source, never reassigned), the active key and index, and the
host's dynamic attribute map.  The fresh state of `_init_attrs` on a host
with no attributes is `initSwapState`. -/
structure SwapState (K V : Type) where
  cacheKeys : List (K × ℚ)
  cacheVals : List (List (String × V))
  cacheSize : ℤ
  frontAttrs : List String
  frontCacheKey : Option K
  frontCacheIdx : Option ℤ
  hostAttrs : List (String × V)
deriving DecidableEq, Repr

/-- The state after `__init__(cache_size=n)` and `_init_attrs` on a host with
no prior dynamic attributes. -/
def initSwapState (K V : Type) (n : ℤ) : SwapState K V :=
  ⟨[], [], n, [], none, none, []⟩

/-- Models `SwapcacheableMixin._swapcache_has_key`: the key appears in
`self._cache['keys']`. -/
def swapcacheHasKey {K V : Type} [DecidableEq K] (s : SwapState K V) (key : K) : Bool :=
  s.cacheKeys.any fun p => decide (p.1 = key)

/-- Models `SwapcacheableMixin._update_front_attrs`: materialize the bundle at
`self._cache['values'][self._front_cache_idx]` onto the host with `setattr`.
An index of `None` is a `TypeError`, an out-of-range index an `IndexError`.
The source does not record the installed names in `_front_attrs`. -/
def updateFrontAttrs {K V : Type} (s : SwapState K V) :
    Except PyError (SwapState K V) :=
  match s.frontCacheIdx with
  | none => .error .typeError
  | some idx =>
    match pyGet s.cacheVals idx with
    | none => .error .indexError
    | some bundle => .ok { s with hostAttrs := dictUpdate s.hostAttrs bundle }

/-- Models `SwapcacheableMixin._set_swapcache_key`: a no-op when the key is already
active.  For an unseen key, append `(key, now)` and an empty bundle, truncate
both lists to the last `_cache_size` entries, clear the front attributes, set
the front key with index `-1` and materialize the new bundle.  For a seen,
non-active key the source computes the index by iterating
`self._seen_parameters` — an attribute that no class in the repository ever
defines — so that branch raises `AttributeError` before mutating anything. -/
def setSwapcacheKey {K V : Type} [DecidableEq K] (key : K) (now : ℚ)
    (s : SwapState K V) : Except PyError (SwapState K V) :=
  if s.frontCacheKey = some key then .ok s
  else if swapcacheHasKey s key then .error .attributeError
  else
    let keys1 := truncKeep (s.cacheKeys ++ [(key, now)]) s.cacheSize
    let vals1 := truncKeep (s.cacheVals ++ [[]]) s.cacheSize
    match delAttrs s.frontAttrs s.hostAttrs with
    | .error e => .error e
    | .ok host1 =>
      updateFrontAttrs
        { s with
          cacheKeys := keys1
          cacheVals := vals1
          hostAttrs := host1
          frontCacheKey := some key
          frontCacheIdx := some (-1) }

/-- Models `SwapcacheableMixin._swap_to_key`: asserts the key has been seen, then
behaves as `_set_swapcache_key`. -/
def swapToKey {K V : Type} [DecidableEq K] (key : K) (now : ℚ)
    (s : SwapState K V) : Except PyError (SwapState K V) :=
  if swapcacheHasKey s key then setSwapcacheKey key now s
  else .error .preconditionError

/-- Models `SwapcacheableMixin._update_swapcache_key_and_swap`: asserts the key is
not `None`, activates it, merges the updates into the bundle at the front
index, and re-materializes the front attributes. -/
def updateSwapcacheKeyAndSwap {K V : Type} [DecidableEq K] (key : Option K)
    (vals : List (String × V)) (now : ℚ) (s : SwapState K V) :
    Except PyError (SwapState K V) :=
  match key with
  | none => .error .preconditionError
  | some k =>
    match setSwapcacheKey k now s with
    | .error e => .error e
    | .ok s1 =>
      match s1.frontCacheIdx with
      | none => .error .typeError
      | some idx =>
        match pyModify s1.cacheVals idx (fun b => dictUpdate b vals) with
        | none => .error .indexError
        | some vals1 => updateFrontAttrs { s1 with cacheVals := vals1 }

/-- Models `SwapcacheableMixin._update_current_swapcache_key`: update under the
currently active key. -/
def updateCurrentSwapcacheKey {K V : Type} [DecidableEq K]
    (vals : List (String × V)) (now : ℚ) (s : SwapState K V) :
    Except PyError (SwapState K V) :=
  updateSwapcacheKeyAndSwap s.frontCacheKey vals now s

/-- One public swap-cache operation. -/
inductive SwapOp (K V : Type) where
  | activate (k : K)
  | swapTo (k : K)
  | update (k : Option K) (vals : List (String × V))
  | updateActive (vals : List (String × V))
deriving DecidableEq, Repr

/-- Dispatch one swap-cache operation at a given clock reading. -/
def swapStep {K V : Type} [DecidableEq K] (op : SwapOp K V) (now : ℚ)
    (s : SwapState K V) : Except PyError (SwapState K V) :=
  match op with
  | .activate k => setSwapcacheKey k now s
  | .swapTo k => swapToKey k now s
  | .update k vals => updateSwapcacheKeyAndSwap k vals now s
  | .updateActive vals => updateCurrentSwapcacheKey vals now s

/-- Run a sequence of timestamped swap-cache operations, stopping at the
first raised exception. -/
def swapRun {K V : Type} [DecidableEq K] (ops : List (SwapOp K V × ℚ))
    (s : SwapState K V) : Except PyError (SwapState K V) :=
  match ops with
  | [] => .ok s
  | (op, now) :: rest =>
    match swapStep op now s with
    | .error e => .error e
    | .ok s1 => swapRun rest s1

/-! ### Helper lemmas about the association-list operations -/

theorem aLookup_aSet_self {V : Type} (l : List (String × V)) (k : String) (v : V) :
    aLookup (aSet l k v) k = some v := by
  induction l with
  | nil => simp [aSet, aLookup]
  | cons p rest ih =>
    obtain ⟨k', v'⟩ := p
    by_cases h : k' = k <;> simp [aSet, aLookup, h, ih]

theorem aLookup_aSet_ne {V : Type} (l : List (String × V)) (k k' : String) (v : V)
    (h : k' ≠ k) : aLookup (aSet l k v) k' = aLookup l k' := by
  have h2 : k ≠ k' := Ne.symm h
  induction l with
  | nil => simp [aSet, aLookup, h2]
  | cons p rest ih =>
    obtain ⟨k0, v0⟩ := p
    by_cases h0 : k0 = k
    · subst h0
      simp [aSet, aLookup, h2]
    · simp [aSet, aLookup, h0, ih]

theorem aLookup_append {V : Type} (l1 l2 : List (String × V)) (k : String) :
    aLookup (l1 ++ l2) k =
      match aLookup l1 k with
      | some v => some v
      | none => aLookup l2 k := by
  induction l1 with
  | nil => simp [aLookup]
  | cons p rest ih =>
    obtain ⟨k0, v0⟩ := p
    by_cases h0 : k0 = k <;> simp [aLookup, h0, ih]

theorem aLookup_registerStart_self (key : String) (now : ℚ) (t : Timings) :
    aLookup (registerStart key now t) key =
      some ((aLookup t key).getD [] ++ [⟨some now, none⟩]) := by
  unfold registerStart
  cases h : aLookup t key with
  | some l => simp [h, aLookup_aSet_self]
  | none => simp [h, aLookup_append, aLookup]

theorem aLookup_registerStart_ne (key k' : String) (now : ℚ) (t : Timings)
    (h : k' ≠ key) : aLookup (registerStart key now t) k' = aLookup t k' := by
  unfold registerStart
  cases h0 : aLookup t key with
  | some l => simp [aLookup_aSet_ne _ _ _ _ h]
  | none =>
    rw [aLookup_append]
    cases h1 : aLookup t k' <;> simp [aLookup, Ne.symm h]

/-! ### C5: precondition and effect of `_register_end` -/

/-- C5: `end(key)` fails with `PreconditionError` exactly when the key has no
recorded sequence, the sequence is empty, or the most recent attempt already
has an end timestamp; on success the only change is that the last attempt
gets its end timestamp set to the current time (other keys are untouched),
and a second `end` with no intervening `begin` then always fails. -/
theorem registerEnd_spec (key : String) (now : ℚ) (t : Timings) :
    (registerEnd key now t = .error .preconditionError ↔
      aLookup t key = none ∨ aLookup t key = some [] ∨
      (∃ l a, aLookup t key = some l ∧ l.getLast? = some a ∧ a.stop.isSome = true)) ∧
    (∀ t', registerEnd key now t = .ok t' →
      ∃ l a, aLookup t key = some l ∧ l.getLast? = some a ∧ a.stop = none ∧
        aLookup t' key = some (l.dropLast ++ [⟨a.start, some now⟩]) ∧
        (∀ k', k' ≠ key → aLookup t' k' = aLookup t k') ∧
        (∀ now2, registerEnd key now2 t' = .error .preconditionError)) := by
  constructor
  · cases h : aLookup t key with
    | none => simp [registerEnd, h]
    | some l =>
      cases hl : l.getLast? with
      | none =>
        have hnil : l = [] := List.getLast?_eq_none_iff.mp hl
        subst hnil
        simp [registerEnd, h]
      | some a =>
        have hne : l ≠ [] := by
          intro he
          rw [he] at hl
          simp at hl
        cases hs : a.stop with
        | none =>
          simp only [registerEnd, h, hl, hs, Option.isSome_none, Bool.false_eq_true,
            if_false]
          constructor
          · intro he
            exact absurd he (by simp)
          · rintro (h1 | h1 | ⟨l2, a2, hl2, hla2, hsa2⟩)
            · exact absurd h1 (by simp)
            · rw [Option.some_inj] at h1
              exact absurd h1 hne
            · rw [Option.some_inj] at hl2
              subst hl2
              rw [hl, Option.some_inj] at hla2
              subst hla2
              rw [hs] at hsa2
              simp at hsa2
        | some e =>
          simp only [registerEnd, h, hl, hs, Option.isSome_some, if_true]
          constructor
          · intro _
            exact Or.inr (Or.inr ⟨l, a, rfl, hl, by rw [hs]; rfl⟩)
          · intro _
            trivial
  · intro t' hok
    unfold registerEnd at hok
    cases h : aLookup t key with
    | none =>
      simp only [h] at hok
      exact absurd hok (by simp)
    | some l =>
      simp only [h] at hok
      cases hl : l.getLast? with
      | none =>
        simp only [hl] at hok
        exact absurd hok (by simp)
      | some a =>
        simp only [hl] at hok
        cases hs : a.stop with
        | some e =>
          simp only [hs, Option.isSome_some, if_true] at hok
          exact absurd hok (by simp)
        | none =>
          simp only [hs, Option.isSome_none, Bool.false_eq_true, if_false,
            Except.ok.injEq] at hok
          refine ⟨l, a, rfl, hl, hs, ?_, ?_, ?_⟩
          · rw [← hok]
            exact aLookup_aSet_self _ _ _
          · intro k' hk'
            rw [← hok]
            exact aLookup_aSet_ne _ _ _ _ hk'
          · intro now2
            unfold registerEnd
            rw [← hok, aLookup_aSet_self]
            simp [List.getLast?_concat]

/-- Witness for C5 at a concrete recorder state with one open attempt for
key `k`: the success branch of `registerEnd_spec` applies at time `2`. -/
theorem registerEnd_spec_witness :
    ∃ l a, aLookup ([("k", [⟨some 0, none⟩])] : Timings) "k" = some l ∧
      l.getLast? = some a ∧ a.stop = none ∧
      aLookup ([("k", [⟨some 0, some 2⟩])] : Timings) "k"
        = some (l.dropLast ++ [⟨a.start, some 2⟩]) ∧
      (∀ k', k' ≠ "k" → aLookup ([("k", [⟨some 0, some 2⟩])] : Timings) k'
        = aLookup ([("k", [⟨some 0, none⟩])] : Timings) k') ∧
      (∀ now2, registerEnd "k" now2 [("k", [⟨some 0, some 2⟩])]
        = .error .preconditionError) :=
  (registerEnd_spec "k" 2 [("k", [⟨some 0, none⟩])]).2
    [("k", [⟨some 0, some 2⟩])] (by decide)

/-! ### C6: the scoped-timing block closes the attempt on every exit path -/

/-- C6: whatever the wrapped body does — return normally or raise — as long
as it leaves a nonempty attempt sequence for the key, after `_time_as` exits
the most recent attempt for that key has its end timestamp set: the
`finally` clause runs `_register_end`, which closes an open last attempt, and
if the last attempt is already closed the registration fails but the end
timestamp is still present. -/
theorem timeAs_always_ends {α E : Type} (key : String)
    (body : Timings → Except E α × Timings) (now1 now2 : ℚ) (t : Timings)
    (h : ∃ l, aLookup (body (registerStart key now1 t)).2 key = some l ∧ l ≠ []) :
    lastAttemptEnded (timeAs key body now1 now2 t).2 key = true := by
  obtain ⟨l, hl, hne⟩ := h
  cases hlast : l.getLast? with
  | none => exact absurd (List.getLast?_eq_none_iff.mp hlast) hne
  | some a =>
    cases hs : a.stop with
    | some e =>
      have herr : registerEnd key now2 (body (registerStart key now1 t)).2
          = .error .preconditionError := by
        simp [registerEnd, hl, hlast, hs]
      simp [timeAs, herr, lastAttemptEnded, hl, hlast, hs]
    | none =>
      have hend : registerEnd key now2 (body (registerStart key now1 t)).2
          = .ok (aSet (body (registerStart key now1 t)).2 key
              (l.dropLast ++ [⟨a.start, some now2⟩])) := by
        simp [registerEnd, hl, hlast, hs]
      simp [timeAs, hend, lastAttemptEnded, aLookup_aSet_self, List.getLast?_concat]

/-- Witness for C6: a body that raises immediately, leaving the freshly
opened attempt in place; the block still ends it. -/
theorem timeAs_always_ends_witness :
    lastAttemptEnded
      (timeAs "k" (fun s => ((Except.error () : Except Unit Unit), s)) 0 1
        ([] : Timings)).2 "k" = true :=
  timeAs_always_ends "k" (fun s => ((Except.error () : Except Unit Unit), s)) 0 1 []
    ⟨[⟨some 0, none⟩], by decide, by decide⟩

/-! ### C2: the `TimeAs` decorator wrapper -/

/-- C2 counterexample: a wrapped callable that raises.  The invocation has
finished (the exception propagated), one new attempt was appended for the
key, but its end timestamp was never set — `wrapper_timing` has no
`try`/`finally` around the call. -/
theorem wrapperTiming_raise_counterexample :
    (wrapperTiming "k"
        (fun (_ : List ℚ) (_ : List (String × ℚ)) s => ((Except.error () : Except Unit ℚ), s))
        0 1 [] [] ([] : Timings)).2 = [("k", [⟨some 0, none⟩])] ∧
    lastAttemptEnded
      (wrapperTiming "k"
        (fun (_ : List ℚ) (_ : List (String × ℚ)) s => ((Except.error () : Except Unit ℚ), s))
        0 1 [] [] ([] : Timings)).2 "k" = false := by
  decide

/-- C2 (amended): for a wrapped callable that does not itself modify the
timing state, a normally-returning invocation appends exactly one new attempt
for the decorator's key with both timestamps set; a raising invocation
appends exactly one new attempt with its start set and its end never set.
Other keys are untouched either way. -/
theorem wrapperTiming_spec {V α E : Type} (key : String)
    (fn : List V → List (String × V) → Timings → Except E α × Timings)
    (now1 now2 : ℚ) (pos : List V) (kw : List (String × V)) (t : Timings)
    (hfn : ∀ p k s, (fn p k s).2 = s) :
    (∀ out, (wrapperTiming key fn now1 now2 pos kw t).1 = .ok out →
      aLookup (wrapperTiming key fn now1 now2 pos kw t).2 key
        = some ((aLookup t key).getD [] ++ [⟨some now1, some now2⟩])) ∧
    (∀ e, (wrapperTiming key fn now1 now2 pos kw t).1 = .error (.inl e) →
      aLookup (wrapperTiming key fn now1 now2 pos kw t).2 key
        = some ((aLookup t key).getD [] ++ [⟨some now1, none⟩])) ∧
    (∀ k', k' ≠ key →
      aLookup (wrapperTiming key fn now1 now2 pos kw t).2 k' = aLookup t k') := by
  have hlook := aLookup_registerStart_self key now1 t
  cases hr : fn pos (kw.filter fun p => decide (p.1 ≠ "seed")) (registerStart key now1 t) with
  | mk r1 t2 =>
  simp only [decide_not] at hr
  have ht2 : t2 = registerStart key now1 t := by
    have hsnd := hfn pos (kw.filter fun p => decide (p.1 ≠ "seed")) (registerStart key now1 t)
    simp only [decide_not] at hsnd
    rw [hr] at hsnd
    exact hsnd
  subst ht2
  cases r1 with
  | ok out =>
    have hend : registerEnd key now2 (registerStart key now1 t)
        = .ok (aSet (registerStart key now1 t) key
            ((aLookup t key).getD [] ++ [⟨some now1, some now2⟩])) := by
      simp [registerEnd, hlook, List.getLast?_concat, List.dropLast_concat]
    refine ⟨?_, ?_, ?_⟩
    · intro out2 _
      simp [wrapperTiming, hr, hend, aLookup_aSet_self]
    · intro e he
      simp [wrapperTiming, hr, hend] at he
    · intro k' hk'
      simp [wrapperTiming, hr, hend, aLookup_aSet_ne _ _ _ _ hk',
        aLookup_registerStart_ne key k' now1 t hk']
  | error e =>
    refine ⟨?_, ?_, ?_⟩
    · intro out2 hout
      simp [wrapperTiming, hr] at hout
    · intro e2 _
      simp [wrapperTiming, hr, hlook]
    · intro k' hk'
      simp [wrapperTiming, hr, aLookup_registerStart_ne key k' now1 t hk']

/-- Witness for C2 (amended) at a normally-returning callable: the single
appended attempt carries both timestamps. -/
theorem wrapperTiming_spec_witness :
    aLookup (wrapperTiming "k"
        (fun (_ : List ℚ) (_ : List (String × ℚ)) s => ((Except.ok (5 : ℚ) : Except Unit ℚ), s))
        0 1 [] [] ([] : Timings)).2 "k" = some [⟨some 0, some 1⟩] := by
  have h := (wrapperTiming_spec "k"
      (fun (_ : List ℚ) (_ : List (String × ℚ)) s => ((Except.ok (5 : ℚ) : Except Unit ℚ), s))
      0 1 [] [] ([] : Timings) (fun _ _ _ => rfl)).1 5 (by decide)
  simpa using h

/-! ### C10: the wrapper consumes the `seed` keyword argument -/

/-- C10: the wrapper's keyword-only `seed` parameter captures any call-site
keyword named `seed` and never forwards it: two calls whose keyword maps
agree after removing `seed` (any two seed values, or none at all) give the
callable identical arguments and produce identical results and identical
timing state. -/
theorem wrapperTiming_seed_independent {V α E : Type} (key : String)
    (fn : List V → List (String × V) → Timings → Except E α × Timings)
    (now1 now2 : ℚ) (pos : List V) (kw1 kw2 : List (String × V)) (t : Timings)
    (h : kw1.filter (fun p => decide (p.1 ≠ "seed"))
       = kw2.filter (fun p => decide (p.1 ≠ "seed"))) :
    wrapperTiming key fn now1 now2 pos kw1 t
      = wrapperTiming key fn now1 now2 pos kw2 t := by
  simp only [wrapperTiming, h]

/-- Witness for C10: `seed=5` versus omitting `seed` entirely, with a
callable that reports how many keyword arguments it received. -/
theorem wrapperTiming_seed_independent_witness :
    wrapperTiming "k"
      (fun (p : List ℚ) (kws : List (String × ℚ)) s =>
        ((Except.ok (p.length + kws.length) : Except Unit ℕ), s))
      0 1 [] [("seed", 5)] ([] : Timings)
    = wrapperTiming "k"
      (fun (p : List ℚ) (kws : List (String × ℚ)) s =>
        ((Except.ok (p.length + kws.length) : Except Unit ℕ), s))
      0 1 [] [] ([] : Timings) :=
  wrapperTiming_seed_independent "k" _ 0 1 [] [("seed", 5)] [] [] (by decide)

/-! ### C3: nullability of the stddev component of the aggregate queries -/

theorem aLookup_map {A B : Type} (f : A → B) (l : List (String × A)) (k : String) :
    aLookup (l.map fun p => (p.1, f p.2)) k = (aLookup l k).map f := by
  induction l with
  | nil => simp [aLookup]
  | cons p rest ih =>
    obtain ⟨k0, v0⟩ := p
    by_cases h : k0 = k <;> simp [aLookup, h, ih]

/-- C3 counterexample: a timing key with exactly one completed duration.  The
timing recorder's aggregate returns `arr.std()` — here `0`, stored as
`some 0` — for a count of `1`, not the null the claim requires for
`count ≤ 1`. -/
theorem durationStats_stddev_counterexample :
    aLookup (durationStats [("k", [⟨some 0, some 2⟩])]) "k" = some (2, 1, some 0) ∧
    (some (0 : ℚ) ≠ (none : Option ℚ)) := by
  constructor
  · norm_num [durationStats, completedDurations, qMean, qPopVar, aLookup, List.filterMap]
  · simp

/-- C3 (amended): the aggregate queries return `(mean, count, stddev)` over
the completed samples of the key.  The memory recorder's stddev is null
exactly when the count is at most one; the timing recorder's stddev is never
null — it is always the numpy population standard deviation (zero for a
single sample). -/
theorem stats_stddev_spec :
    (∀ (t : Timings) (k : String) (e : ℚ × ℕ × Option ℚ),
       aLookup (durationStats t) k = some e →
       ∃ l, aLookup t k = some l ∧
         e = (qMean (completedDurations l), (completedDurations l).length,
              some (qPopVar (completedDurations l)))) ∧
    (∀ (m : List (String × List ℚ)) (k : String) (e : ℚ × ℕ × Option ℚ),
       aLookup (memoryStats m) k = some e →
       (e.2.2 = none ↔ e.2.1 ≤ 1)) := by
  constructor
  · intro t k e he
    have he2 : (aLookup t k).map (fun l => (qMean (completedDurations l),
        (completedDurations l).length, some (qPopVar (completedDurations l)))) = some e := by
      rw [← aLookup_map (fun l => (qMean (completedDurations l),
        (completedDurations l).length, some (qPopVar (completedDurations l)))) t k]
      exact he
    cases h : aLookup t k with
    | none => rw [h] at he2; simp at he2
    | some l =>
      rw [h] at he2
      simp only [Option.map_some', Option.some_inj] at he2
      exact ⟨l, rfl, he2.symm⟩
  · intro m k e he
    have he2 : (aLookup m k).map (fun l => (qMean l, l.length,
        if l.length ≤ 1 then none else some (qPopVar l))) = some e := by
      rw [← aLookup_map (fun l => (qMean l, l.length,
        if l.length ≤ 1 then none else some (qPopVar l))) m k]
      exact he
    cases h : aLookup m k with
    | none => rw [h] at he2; simp at he2
    | some l =>
      rw [h] at he2
      simp only [Option.map_some', Option.some_inj] at he2
      subst he2
      by_cases hlen : l.length ≤ 1 <;> simp [hlen]

/-- Witness for C3 (amended): the timing branch applied at the concrete
recorder state with one completed attempt. -/
theorem stats_stddev_spec_witness :
    ∃ l, aLookup ([("k", [⟨some 0, some 2⟩])] : Timings) "k" = some l ∧
      ((2 : ℚ), 1, some (0 : ℚ)) = (qMean (completedDurations l),
        (completedDurations l).length, some (qPopVar (completedDurations l))) :=
  stats_stddev_spec.1 [("k", [⟨some 0, some 2⟩])] "k" (2, 1, some 0)
    (by norm_num [durationStats, completedDurations, qMean, qPopVar, aLookup, List.filterMap])

/-! ### C9: the aggregate over durations [2, 2, 1] -/

/-- C9: for completed durations `[2, 2, 1]` the aggregate returns mean `5/3`
(within `0.01` of `1.667`), count `3`, and the population variance `2/9`,
whose square root — the numpy `arr.std()` — is within `0.001` of `0.471`. -/
theorem durationStats_2_2_1 :
    durationStats [("k", [⟨some 0, some 2⟩, ⟨some 10, some 12⟩, ⟨some 20, some 21⟩])]
      = [("k", (5/3, 3, some (2/9)))] ∧
    |(5 : ℚ)/3 - 1667/1000| < 1/100 ∧
    |Real.sqrt (2/9) - 471/1000| < 1/1000 := by
  refine ⟨?_, ?_, ?_⟩
  · norm_num [durationStats, completedDurations, qMean, qPopVar, List.filterMap]
  · rw [abs_lt]
    constructor <;> norm_num
  · rw [abs_lt]
    constructor
    · have h : (47/100 : ℝ) < Real.sqrt (2/9) :=
        Real.lt_sqrt_of_sq_lt (by norm_num)
      linarith
    · have h : Real.sqrt (2/9) < 472/1000 := by
        rw [Real.sqrt_lt' (by norm_num)]
        norm_num
      linarith

/-! ### C7: unit normalization and quantity formatting -/

/-- C7: over the table `[(1000,"ms"),(60,"s"),(60,"min"),(None,"h")]` the
formatter renders `(1000,"ms")` as `"1.0 s"`, `(720000,"ms")` as
`"12.0 min"`, `(3600,"s")` as `"1.0 h"`, and `normalize_unit` raises
`LookupError` for the absent unit `"ns"`. -/
theorem normalize_format_examples :
    pprint_quant [(some 1000, "ms"), (some 60, "s"), (some 60, "min"), (none, "h")]
      (1000, "ms") 1 none = .ok "1.0 s" ∧
    pprint_quant [(some 1000, "ms"), (some 60, "s"), (some 60, "min"), (none, "h")]
      (720000, "ms") 1 none = .ok "12.0 min" ∧
    pprint_quant [(some 1000, "ms"), (some 60, "s"), (some 60, "min"), (none, "h")]
      (3600, "s") 1 none = .ok "1.0 h" ∧
    normalize_unit (5000, "ns")
      [(some 1000, "ms"), (some 60, "s"), (some 60, "min"), (none, "h")]
      = .error .lookupError := by
  refine ⟨?_, ?_, ?_, ?_⟩
  · norm_num [pprint_quant, normalize_unit, factorLoop, pickUnitLoop, fmt1, fmt1Nonneg,
      roundHalfEven]
    rfl
  · norm_num [pprint_quant, normalize_unit, factorLoop, pickUnitLoop, fmt1, fmt1Nonneg,
      roundHalfEven]
    rfl
  · norm_num [pprint_quant, normalize_unit, factorLoop, pickUnitLoop, fmt1, fmt1Nonneg,
      roundHalfEven, (by decide : ("ms" : String) ≠ "s")]
    rfl
  · norm_num [normalize_unit, factorLoop,
      (by decide : ("ms" : String) ≠ "ns"), (by decide : ("s" : String) ≠ "ns"),
      (by decide : ("min" : String) ≠ "ns"), (by decide : ("h" : String) ≠ "ns")]

/-! ### C8: ordering of the rendered statistics table -/

theorem decorate_mem {stats : List (String × StatEntry)} {cutoffs : UnitsList}
    {ds : List (String × StatEntry × ℚ)} (hd : decorate stats cutoffs = .ok ds)
    {k : String} {e : StatEntry} {tv : ℚ} (hmem : (k, e) ∈ stats)
    (htv : total_val cutoffs e = .ok tv) : (k, e, tv) ∈ ds := by
  induction stats generalizing ds with
  | nil => simp at hmem
  | cons p rest ih =>
    simp only [decorate] at hd
    cases hp : total_val cutoffs p.2 with
    | error e2 =>
      rw [hp] at hd
      exact absurd hd (by simp)
    | ok tp =>
      rw [hp] at hd
      cases hrest : decorate rest cutoffs with
      | error e2 =>
        rw [hrest] at hd
        exact absurd hd (by simp)
      | ok ds2 =>
        rw [hrest] at hd
        simp only [Except.ok.injEq] at hd
        subst hd
        rcases List.mem_cons.mp hmem with hhead | htail
        · have hk : p.1 = k := (congrArg Prod.fst hhead).symm
          have he : p.2 = e := (congrArg Prod.snd hhead).symm
          subst hk
          subst he
          rw [hp] at htv
          simp only [Except.ok.injEq] at htv
          subst htv
          exact List.mem_cons_self _ _
        · exact List.mem_cons_of_mem _ (ih hrest htail)

/-- C8: `format_table` orders its lines ascending in total base-unit
magnitude — for keys in the stats mapping whose totals compare strictly, the
smaller-total key appears strictly earlier in the ordered key sequence the
lines are rendered from — and on the ms/s/min/h example the `"foobar"` line
precedes the `"foo"` line in the rendered string. -/
theorem pprint_stats_map_order :
    (∀ (stats : List (String × StatEntry)) (cutoffs : UnitsList)
       (k1 k2 : String) (e1 e2 : StatEntry) (t1 t2 : ℚ)
       (os : List (String × StatEntry × ℚ)),
       (k1, e1) ∈ stats → (k2, e2) ∈ stats →
       total_val cutoffs e1 = .ok t1 → total_val cutoffs e2 = .ok t2 → t1 < t2 →
       orderedEntries stats cutoffs = .ok os →
       ∃ i j : ℕ, i < j ∧ (os.map Prod.fst)[i]? = some k1 ∧
         (os.map Prod.fst)[j]? = some k2) ∧
    pprint_stats_map
      [("foo", ((1000, "ms"), 3, some 100)), ("foobar", ((1000, "ms"), 1, none))]
      [(some 1000, "ms"), (some 60, "s"), (some 60, "min"), (none, "h")]
      = .ok "foobar: 1.0 s\nfoo:    1.0 ± 0.1 s (x3)" := by
  constructor
  · intro stats cutoffs k1 k2 e1 e2 t1 t2 os h1 h2 ht1 ht2 hlt hos
    unfold orderedEntries at hos
    cases hd : decorate stats cutoffs with
    | error e =>
      rw [hd] at hos
      exact absurd hos (by simp)
    | ok ds =>
      rw [hd] at hos
      simp only [Except.ok.injEq] at hos
      subst hos
      have hsorted : List.Sorted byTotal (ds.insertionSort byTotal) :=
        List.sorted_insertionSort byTotal ds
      have hm1 : (k1, e1, t1) ∈ ds.insertionSort byTotal := by
        rw [List.mem_insertionSort]
        exact decorate_mem hd h1 ht1
      have hm2 : (k2, e2, t2) ∈ ds.insertionSort byTotal := by
        rw [List.mem_insertionSort]
        exact decorate_mem hd h2 ht2
      obtain ⟨i, hi, hgi⟩ := List.mem_iff_getElem.mp hm1
      obtain ⟨j, hj, hgj⟩ := List.mem_iff_getElem.mp hm2
      have hij : i < j := by
        rcases lt_trichotomy i j with h | h | h
        · exact h
        · exfalso
          subst h
          have : t1 = t2 := by
            have heq := hgi.symm.trans hgj
            exact congrArg (fun p => p.2.2) heq
          exact absurd this (ne_of_lt hlt)
        · exfalso
          have hpair := List.pairwise_iff_getElem.mp hsorted j i hj hi h
          rw [hgi, hgj] at hpair
          exact absurd hpair (not_le.mpr hlt)
      refine ⟨i, j, hij, ?_, ?_⟩
      · rw [List.getElem?_map, List.getElem?_eq_getElem hi, hgi]
        rfl
      · rw [List.getElem?_map, List.getElem?_eq_getElem hj, hgj]
        rfl
  · norm_num [pprint_stats_map, orderedEntries, decorate, total_val, renderLines,
      List.insertionSort, List.orderedInsert, byTotal, pprint_quant, normalize_unit,
      factorLoop, pickUnitLoop, fmt1, fmt1Nonneg, roundHalfEven, String.intercalate]
    rfl

/-- Witness for C8: the ordering branch applied at the concrete example —
`"foobar"` (total 1000 ms) precedes `"foo"` (total 3000 ms). -/
theorem pprint_stats_map_order_witness :
    ∃ i j : ℕ, i < j ∧
      (([("foobar", ((1000, "ms"), 1, none), (1000 : ℚ)),
         ("foo", ((1000, "ms"), 3, some 100), 3000)] :
          List (String × StatEntry × ℚ)).map Prod.fst)[i]? = some "foobar" ∧
      (([("foobar", ((1000, "ms"), 1, none), (1000 : ℚ)),
         ("foo", ((1000, "ms"), 3, some 100), 3000)] :
          List (String × StatEntry × ℚ)).map Prod.fst)[j]? = some "foo" :=
  pprint_stats_map_order.1
    [("foo", ((1000, "ms"), 3, some 100)), ("foobar", ((1000, "ms"), 1, none))]
    [(some 1000, "ms"), (some 60, "s"), (some 60, "min"), (none, "h")]
    "foobar" "foo" ((1000, "ms"), 1, none) ((1000, "ms"), 3, some 100) 1000 3000 _
    (by simp) (by simp)
    (by norm_num [total_val, factorLoop])
    (by norm_num [total_val, factorLoop])
    (by norm_num)
    (by norm_num [orderedEntries, decorate, total_val, factorLoop,
      List.insertionSort, List.orderedInsert, byTotal])

/-! ### C1: re-activating a seen key hits the undefined `_seen_parameters` -/

/-- C1: the claim's scenario — `update("a", x := 1)`, `activate("b")`,
`activate("a")` at capacity 5.  After the first two operations the key `"a"`
is still cached (`has_key` true, not evicted) and is not the active key, yet
the third operation raises `AttributeError` instead of restoring `x == 1`:
the seen-key branch of `_set_swapcache_key` reads `self._seen_parameters`,
which no class in the repository defines.  `_swap_to_key("a")` passes its
has-key assertion and fails the same way. -/
theorem swapcache_reactivation_attribute_error :
    swapRun [(SwapOp.update (some "a") [("x", (1 : ℚ))], 0), (SwapOp.activate "b", 1),
        (SwapOp.activate "a", 2)] (initSwapState String ℚ 5)
      = .error .attributeError ∧
    (swapRun [(SwapOp.update (some "a") [("x", (1 : ℚ))], 0), (SwapOp.activate "b", 1)]
        (initSwapState String ℚ 5)).map
        (fun s => (swapcacheHasKey s "a", s.frontCacheKey, aLookup s.hostAttrs "x"))
      = .ok (true, some "b", some 1) ∧
    (swapRun [(SwapOp.update (some "a") [("x", (1 : ℚ))], 0), (SwapOp.activate "b", 1)]
        (initSwapState String ℚ 5)).bind (swapToKey "a" 2)
      = .error .attributeError := by
  decide

/-! ### C4: bounded capacity and FIFO eviction -/

/-- C4 counterexample: with configured capacity 0 the truncation slice
`[-0:]` is `[0:]` and keeps the whole list, so a single activation leaves one
live entry — more than the configured capacity. -/
theorem swapcache_capacity_zero_counterexample :
    (swapRun [(SwapOp.activate "a", 0)] (initSwapState String ℚ 0)).map
      (fun s => s.cacheKeys.length) = .ok 1 ∧ ¬ ((1 : ℤ) ≤ 0) := by
  decide

theorem truncKeep_length_le {α : Type} (l : List α) (n : ℤ) (hn : 1 ≤ n) :
    (truncKeep l n).length ≤ n.toNat := by
  unfold truncKeep pySliceFrom
  have h1 : ¬ (0 ≤ -n) := by omega
  rw [if_neg h1]
  simp only [List.length_drop]
  omega

theorem pyModify_length {α : Type} (l l2 : List α) (idx : ℤ) (f : α → α)
    (h : pyModify l idx f = some l2) : l2.length = l.length := by
  unfold pyModify at h
  by_cases h0 : 0 ≤ (if idx < 0 then idx + (l.length : ℤ) else idx)
  · simp only [if_pos h0] at h
    cases hg : l[((if idx < 0 then idx + (l.length : ℤ) else idx)).toNat]? with
    | none =>
      simp only [hg] at h
      exact Option.noConfusion h
    | some a =>
      simp only [hg, Option.some_inj] at h
      subst h
      exact List.length_set _ _ _
  · simp only [if_neg h0] at h
    exact Option.noConfusion h

theorem updateFrontAttrs_shape {K V : Type} (s s' : SwapState K V)
    (h : updateFrontAttrs s = .ok s') :
    s'.cacheKeys = s.cacheKeys ∧ s'.cacheVals = s.cacheVals ∧
      s'.cacheSize = s.cacheSize := by
  unfold updateFrontAttrs at h
  cases hidx : s.frontCacheIdx with
  | none =>
    simp only [hidx] at h
    exact Except.noConfusion h
  | some idx =>
    simp only [hidx] at h
    cases hg : pyGet s.cacheVals idx with
    | none =>
      simp only [hg] at h
      exact Except.noConfusion h
    | some bundle =>
      simp only [hg, Except.ok.injEq] at h
      subst h
      exact ⟨rfl, rfl, rfl⟩

theorem setSwapcacheKey_shape {K V : Type} [DecidableEq K] (key : K) (now : ℚ)
    (s s' : SwapState K V) (h : setSwapcacheKey key now s = .ok s') :
    s'.cacheSize = s.cacheSize ∧
    ((s'.cacheKeys = s.cacheKeys ∧ s'.cacheVals = s.cacheVals) ∨
     (s'.cacheKeys = truncKeep (s.cacheKeys ++ [(key, now)]) s.cacheSize ∧
      s'.cacheVals = truncKeep (s.cacheVals ++ [[]]) s.cacheSize)) := by
  unfold setSwapcacheKey at h
  by_cases h1 : s.frontCacheKey = some key
  · simp only [if_pos h1, Except.ok.injEq] at h
    subst h
    exact ⟨rfl, Or.inl ⟨rfl, rfl⟩⟩
  · simp only [if_neg h1] at h
    cases h2 : swapcacheHasKey s key with
    | true =>
      simp only [h2, if_true] at h
      exact Except.noConfusion h
    | false =>
      simp only [h2, Bool.false_eq_true, if_false] at h
      cases hdel : delAttrs s.frontAttrs s.hostAttrs with
      | error e =>
        simp only [hdel] at h
        exact Except.noConfusion h
      | ok host1 =>
        simp only [hdel] at h
        obtain ⟨hk, hv, hsz⟩ := updateFrontAttrs_shape _ _ h
        exact ⟨hsz, Or.inr ⟨hk, hv⟩⟩

theorem swapStep_inv {K V : Type} [DecidableEq K] (op : SwapOp K V) (now : ℚ)
    (s s' : SwapState K V) (h : swapStep op now s = .ok s') (hN : 1 ≤ s.cacheSize)
    (hk : s.cacheKeys.length ≤ s.cacheSize.toNat)
    (hv : s.cacheVals.length ≤ s.cacheSize.toNat) :
    s'.cacheSize = s.cacheSize ∧ s'.cacheKeys.length ≤ s.cacheSize.toNat ∧
      s'.cacheVals.length ≤ s.cacheSize.toNat := by
  have hset : ∀ (key : K) (s2 : SwapState K V), setSwapcacheKey key now s = .ok s2 →
      s2.cacheSize = s.cacheSize ∧ s2.cacheKeys.length ≤ s.cacheSize.toNat ∧
        s2.cacheVals.length ≤ s.cacheSize.toNat := by
    intro key s2 hs2
    obtain ⟨hsz, hcase⟩ := setSwapcacheKey_shape key now s s2 hs2
    refine ⟨hsz, ?_, ?_⟩
    · rcases hcase with ⟨hk2, _⟩ | ⟨hk2, _⟩
      · rw [hk2]; exact hk
      · rw [hk2]; exact truncKeep_length_le _ _ hN
    · rcases hcase with ⟨_, hv2⟩ | ⟨_, hv2⟩
      · rw [hv2]; exact hv
      · rw [hv2]; exact truncKeep_length_le _ _ hN
  have hupd : ∀ (key : Option K) (vals : List (String × V)),
      updateSwapcacheKeyAndSwap key vals now s = .ok s' →
      s'.cacheSize = s.cacheSize ∧ s'.cacheKeys.length ≤ s.cacheSize.toNat ∧
        s'.cacheVals.length ≤ s.cacheSize.toNat := by
    intro key vals hu
    unfold updateSwapcacheKeyAndSwap at hu
    cases key with
    | none => exact Except.noConfusion hu
    | some k =>
      cases hs1 : setSwapcacheKey k now s with
      | error e =>
        simp only [hs1] at hu
        exact Except.noConfusion hu
      | ok s1 =>
        simp only [hs1] at hu
        obtain ⟨hsz1, hk1, hv1⟩ := hset k s1 hs1
        cases hidx : s1.frontCacheIdx with
        | none =>
          simp only [hidx] at hu
          exact Except.noConfusion hu
        | some idx =>
          simp only [hidx] at hu
          cases hm : pyModify s1.cacheVals idx (fun b => dictUpdate b vals) with
          | none =>
            simp only [hm] at hu
            exact Except.noConfusion hu
          | some vals1 =>
            simp only [hm] at hu
            obtain ⟨hk2, hv2, hsz2⟩ := updateFrontAttrs_shape _ _ hu
            refine ⟨by rw [hsz2]; exact hsz1, ?_, ?_⟩
            · rw [hk2]; exact hk1
            · rw [hv2]
              simp only
              rw [pyModify_length _ _ _ _ hm]
              exact hv1
  cases op with
  | activate k => exact hset k s' h
  | swapTo k =>
    simp only [swapStep, swapToKey] at h
    cases h2 : swapcacheHasKey s k with
    | true =>
      simp only [h2, if_true] at h
      exact hset k s' h
    | false =>
      simp only [h2, Bool.false_eq_true, if_false] at h
      exact Except.noConfusion h
  | update k vals => exact hupd k vals h
  | updateActive vals => exact hupd s.frontCacheKey vals h

theorem swapRun_inv {K V : Type} [DecidableEq K] (ops : List (SwapOp K V × ℚ))
    (s s' : SwapState K V) (h : swapRun ops s = .ok s') (hN : 1 ≤ s.cacheSize)
    (hk : s.cacheKeys.length ≤ s.cacheSize.toNat)
    (hv : s.cacheVals.length ≤ s.cacheSize.toNat) :
    s'.cacheSize = s.cacheSize ∧ s'.cacheKeys.length ≤ s.cacheSize.toNat ∧
      s'.cacheVals.length ≤ s.cacheSize.toNat := by
  induction ops generalizing s with
  | nil =>
    unfold swapRun at h
    simp only [Except.ok.injEq] at h
    subst h
    exact ⟨rfl, hk, hv⟩
  | cons p rest ih =>
    unfold swapRun at h
    cases hstep : swapStep p.1 p.2 s with
    | error e =>
      simp only [hstep] at h
      exact Except.noConfusion h
    | ok s1 =>
      simp only [hstep] at h
      obtain ⟨hsz1, hk1, hv1⟩ := swapStep_inv p.1 p.2 s s1 hstep hN hk hv
      have hN1 : 1 ≤ s1.cacheSize := by rw [hsz1]; exact hN
      obtain ⟨hsz2, hk2, hv2⟩ := ih s1 h hN1 (by rw [hsz1]; exact hk1)
        (by rw [hsz1]; exact hv1)
      rw [hsz1] at hsz2 hk2 hv2
      exact ⟨hsz2, hk2, hv2⟩

/-- C4 (amended): for every configured capacity `N ≥ 1` and every successful
operation sequence from a fresh state, at most `N` cache entries are live;
eviction is FIFO by insertion order — the truncation keeps the last `N`
entries — so activating 6 distinct keys at capacity 5 retains exactly the
five most recently inserted keys and `has_key` is false for the first.
(For `N = 0` the Python slice `[-0:]` keeps everything, so that capacity is
not enforced.) -/
theorem swapcache_capacity {K V : Type} [DecidableEq K] (N : ℤ) (hN : 1 ≤ N)
    (ops : List (SwapOp K V × ℚ)) (s' : SwapState K V)
    (hrun : swapRun ops (initSwapState K V N) = .ok s') :
    s'.cacheKeys.length ≤ N.toNat ∧
    (swapRun [(SwapOp.activate "k1", 1), (SwapOp.activate "k2", 2),
        (SwapOp.activate "k3", 3), (SwapOp.activate "k4", 4),
        (SwapOp.activate "k5", 5), (SwapOp.activate "k6", 6)]
        (initSwapState String ℚ 5)).map
        (fun s => (s.cacheKeys.map Prod.fst, swapcacheHasKey s "k1"))
      = .ok (["k2", "k3", "k4", "k5", "k6"], false) := by
  constructor
  · exact (swapRun_inv ops (initSwapState K V N) s' hrun hN (by simp [initSwapState])
      (by simp [initSwapState])).2.1
  · decide

/-- Witness for C4 (amended) at capacity 1 with a single activation. -/
theorem swapcache_capacity_witness :
    (⟨[("a", 0)], [[]], 1, [], some "a", some (-1), []⟩ :
        SwapState String ℚ).cacheKeys.length ≤ (1 : ℤ).toNat ∧
    (swapRun [(SwapOp.activate "k1", 1), (SwapOp.activate "k2", 2),
        (SwapOp.activate "k3", 3), (SwapOp.activate "k4", 4),
        (SwapOp.activate "k5", 5), (SwapOp.activate "k6", 6)]
        (initSwapState String ℚ 5)).map
        (fun s => (s.cacheKeys.map Prod.fst, swapcacheHasKey s "k1"))
      = .ok (["k2", "k3", "k4", "k5", "k6"], false) :=
  swapcache_capacity 1 (by decide)
    ([(SwapOp.activate "a", 0)] : List (SwapOp String ℚ × ℚ))
    ⟨[("a", 0)], [[]], 1, [], some "a", some (-1), []⟩ (by decide)
